import Mathlib

/-!
A shallow embedding of the `wtfpeewee` library (files `wtfpeewee/orm.py`,
`wtfpeewee/forms.py`, `wtfpeewee/fields.py`) sufficient to settle the claims
about its schema converter (`ModelConverter.convert`, `convert_fields`) and its
save coordinator (`ModelForm.save_to`, `ModelForm.save_inlines`).

Conventions of the embedding:
* Python dicts and object attribute sets become association lists
  `List (String × Val)`; dict keys are unique in Python, so theorems that need
  it carry a `Nodup` hypothesis on the key list.
* The database is a list of records tagged with a model (table) identifier;
  peewee's auto-incrementing integer primary key is modelled by a counter.
* Exceptions become an `Option String` error component threaded with the state;
  `database.atomic()` restores the entry state when its body reports an error.
* Peewee field classes become an enumeration carrying the (restricted) subclass
  hierarchy, since `convert` dispatches with `isinstance`.
-/

set_option autoImplicit false

namespace WtfPeewee

/-- Submitted or stored scalar values: Python ints, strings, booleans, `None`. -/
inductive Val where
  | vInt : Nat → Val
  | vStr : String → Val
  | vBool : Bool → Val
  | vNone : Val
deriving DecidableEq, Repr

/-- Python truthiness of an optional dictionary value, as in `data.get(k)`. -/
def truthy : Option Val → Bool
  | some (Val.vInt n) => n != 0
  | some (Val.vStr s) => s != ""
  | some (Val.vBool b) => b
  | some Val.vNone => false
  | none => false

/-- Python `str()` of a value, for interpolated error messages. -/
def valRepr : Val → String
  | Val.vInt n => toString n
  | Val.vStr s => s
  | Val.vBool b => if b then "True" else "False"
  | Val.vNone => "None"

/-- First-occurrence lookup in an association list (dict access / `getattr`). -/
def lookupA : List (String × Val) → String → Option Val
  | [], _ => none
  | (k', v) :: rest, k => if k' = k then some v else lookupA rest k

/-- Python `dict.get(k, d)`. -/
def getDA (a : List (String × Val)) (k : String) (d : Val) : Val :=
  (lookupA a k).getD d

/-- `setattr`-style write: overwrite the first binding of `k`, or append one. -/
def setA : List (String × Val) → String → Val → List (String × Val)
  | [], k, v => [(k, v)]
  | (k', v') :: rest, k, v =>
    if k' = k then (k, v) :: rest else (k', v') :: setA rest k v

/-- `orm.handle_null_filter`: treat a submitted empty string as `None`. -/
def handle_null_filter (data : Val) : Val :=
  if data = Val.vStr "" then Val.vNone else data

/-! ### The peewee field classes seen by `ModelConverter`

`convert` dispatches on `isinstance`, so the embedding keeps the relevant part
of the peewee 2.x class hierarchy: `BigIntegerField`, `PrimaryKeyField`,
`ForeignKeyField` and `TimestampField` are subclasses of `IntegerField`, and
`DoubleField` is a subclass of `FloatField`.  `custom` stands for a field class
outside the hierarchy (no conversion rule matches it). -/

inductive PClass where
  | bare | bigInteger | blob | boolean | char | date | dateTime | decimal
  | double | float | foreignKey | integer | primaryKey | text | time | timestamp
  | custom : String → PClass
deriving DecidableEq, Repr

/-- The class together with its superclasses among the modelled classes. -/
def PClass.ancestors : PClass → List PClass
  | PClass.bigInteger => [PClass.bigInteger, PClass.integer]
  | PClass.primaryKey => [PClass.primaryKey, PClass.integer]
  | PClass.foreignKey => [PClass.foreignKey, PClass.integer]
  | PClass.timestamp => [PClass.timestamp, PClass.integer]
  | PClass.double => [PClass.double, PClass.float]
  | c => [c]

/-- Python `isinstance(field, target)`, restricted to the modelled classes. -/
def isInstanceOf (c target : PClass) : Bool :=
  decide (target ∈ c.ancestors)

/-- The Python class name, for `type(field)` in the unconvertible-field error. -/
def PClass.pyName : PClass → String
  | PClass.bare => "BareField"
  | PClass.bigInteger => "BigIntegerField"
  | PClass.blob => "BlobField"
  | PClass.boolean => "BooleanField"
  | PClass.char => "CharField"
  | PClass.date => "DateField"
  | PClass.dateTime => "DateTimeField"
  | PClass.decimal => "DecimalField"
  | PClass.double => "DoubleField"
  | PClass.float => "FloatField"
  | PClass.foreignKey => "ForeignKeyField"
  | PClass.integer => "IntegerField"
  | PClass.primaryKey => "PrimaryKeyField"
  | PClass.text => "TextField"
  | PClass.time => "TimeField"
  | PClass.timestamp => "TimestampField"
  | PClass.custom s => s

/-- Python `"%s" % type(field)` (the quote characters of the `repr` elided). -/
def typeRepr (c : PClass) : String :=
  "<class " ++ c.pyName ++ ">"

/-- A model field as `ModelConverter.convert` inspects it. -/
structure PField where
  name : String
  verboseName : String := ""
  null : Bool := false
  default : Option Val := none
  choices : Option (List (Val × String)) := none
  helpText : String := ""
  cls : PClass
  hasWtfField : Bool := false
deriving DecidableEq, Repr

/-- Python truthiness of `field.choices` (`None` and `[]` are falsy). -/
def choicesTruthy (f : PField) : Bool :=
  match f.choices with
  | some (_ :: _) => true
  | _ => false

/-- The validators `convert` can attach when called with no field arguments. -/
inductive VKind where
  | optionalV | requiredV
deriving DecidableEq, Repr

/-- The filters `convert` can attach when called with no field arguments. -/
inductive FilterKind where
  | nullFilter
deriving DecidableEq, Repr

/-- The wtforms field type selected by the converter. -/
inductive FieldKind where
  | textF | integerF | textAreaF | booleanF | wpDateF | wpDateTimeF | decimalF
  | floatF | hiddenIntegerF | wpTimeF | selectQueryF | modelSelectF
  | selectChoicesF
  | overrideF : String → FieldKind
  | wtfF
deriving DecidableEq, Repr

/-- `FieldInfo`: the converted form field, keeping the keyword arguments the
claims are about (validators, filters, label, default, description). -/
structure FieldInfo where
  name : String
  kind : FieldKind
  label : String
  validators : List VKind
  filters : List FilterKind
  default : Option Val
  description : String
  allowBlank : Bool := false
deriving DecidableEq, Repr

/-- `ModelConverter.defaults`: the ordered type-to-widget table. -/
def defaultsTable : List (PClass × FieldKind) :=
  [(PClass.bare, FieldKind.textF),
   (PClass.bigInteger, FieldKind.integerF),
   (PClass.blob, FieldKind.textAreaF),
   (PClass.boolean, FieldKind.booleanF),
   (PClass.char, FieldKind.textF),
   (PClass.date, FieldKind.wpDateF),
   (PClass.dateTime, FieldKind.wpDateTimeF),
   (PClass.decimal, FieldKind.decimalF),
   (PClass.double, FieldKind.floatF),
   (PClass.float, FieldKind.floatF),
   (PClass.primaryKey, FieldKind.hiddenIntegerF),
   (PClass.integer, FieldKind.integerF),
   (PClass.text, FieldKind.textAreaF),
   (PClass.time, FieldKind.wpTimeF),
   (PClass.timestamp, FieldKind.wpDateTimeF)]

/-- `ModelConverter.coerce_defaults`: classes that come with a coerce function. -/
def coerceDefaults : List PClass :=
  [PClass.bigInteger, PClass.char, PClass.double, PClass.float,
   PClass.integer, PClass.text]

/-- `ModelConverter.required`: the tuple checked with `isinstance`. -/
def requiredClasses : List PClass :=
  [PClass.char, PClass.dateTime, PClass.foreignKey, PClass.primaryKey,
   PClass.text]

/-- `issubclass(self.defaults[converter], f.FormField)`: among the table's
target types only `WPDateTimeField` is a `FormField` subclass. -/
def isFormFieldKind : FieldKind → Bool
  | FieldKind.wpDateTimeF => true
  | _ => false

/-- `ModelConverter.handle_foreign_key`: `allow_blank` when nullable, a
`SelectQueryField` over `field.choices` when choices is not `None`, else a
`ModelSelectField` over the related model. -/
def handle_foreign_key (fld : PField) (validators : List VKind)
    (filters : List FilterKind) : FieldInfo :=
  { name := fld.name
    kind := if fld.choices.isSome then FieldKind.selectQueryF
            else FieldKind.modelSelectF
    label := fld.verboseName
    validators := validators
    filters := filters
    default := fld.default
    description := fld.helpText
    allowBlank := fld.null }

/-- `ModelConverter.convert` for a converter built with the given name
overrides, called with `field_args = None` (so the keyword arguments are
exactly the ones built at the top of `convert`).  The branches follow the
source: null filter, Optional/Required inference, the `overrides` check, the
`wtf_field` hook, the `converters` dict (which holds only
`ForeignKeyField: handle_foreign_key`), then the first `isinstance` match of
the ordered `defaults` table with the choices/coerce special case, and finally
the unconvertible-field error. -/
def convert (overrides : List String) (fld : PField) : Except String FieldInfo :=
  let filters0 : List FilterKind :=
    if fld.null then [FilterKind.nullFilter] else []
  let validators0 : List VKind :=
    if (fld.null || fld.default.isSome) && !(choicesTruthy fld) then
      [VKind.optionalV]
    else if requiredClasses.any (fun t => isInstanceOf fld.cls t) then
      [VKind.requiredV]
    else []
  if fld.name ∈ overrides then
    Except.ok { name := fld.name, kind := FieldKind.overrideF fld.name
                label := fld.verboseName, validators := validators0
                filters := filters0, default := fld.default
                description := fld.helpText }
  else if fld.hasWtfField then
    Except.ok { name := fld.name, kind := FieldKind.wtfF
                label := fld.verboseName, validators := validators0
                filters := filters0, default := fld.default
                description := fld.helpText }
  else if isInstanceOf fld.cls PClass.foreignKey then
    Except.ok (handle_foreign_key fld validators0 filters0)
  else
    match defaultsTable.find? (fun ck => isInstanceOf fld.cls ck.1) with
    | some ck =>
      let filters1 := if isFormFieldKind ck.2 then [] else filters0
      if choicesTruthy fld && decide (ck.1 ∈ coerceDefaults) then
        Except.ok { name := fld.name, kind := FieldKind.selectChoicesF
                    label := fld.verboseName, validators := validators0
                    filters := filters1, default := fld.default
                    description := fld.helpText, allowBlank := fld.null }
      else
        Except.ok { name := fld.name, kind := ck.2
                    label := fld.verboseName, validators := validators0
                    filters := filters1, default := fld.default
                    description := fld.helpText }
    | none =>
      Except.error ("There is not possible conversion for " ++ typeRepr fld.cls)

/-- The selection procedure exactly as the claim states it: the name-override
hook, then foreign-key special-casing, then the first matching entry of the
ordered type-to-widget table. -/
def claimOrderKind (overrides : List String) (fld : PField) :
    Except String FieldKind :=
  if fld.name ∈ overrides then Except.ok (FieldKind.overrideF fld.name)
  else if isInstanceOf fld.cls PClass.foreignKey then
    Except.ok (if fld.choices.isSome then FieldKind.selectQueryF
               else FieldKind.modelSelectF)
  else
    match defaultsTable.find? (fun ck => isInstanceOf fld.cls ck.1) with
    | some ck => Except.ok ck.2
    | none =>
      Except.error ("There is not possible conversion for " ++ typeRepr fld.cls)

/-- The selection procedure as the code has it: the name-override hook, then
the `wtf_field` field-class hook, then foreign-key special-casing, then the
first matching entry of the ordered table, refined to a choice-select field
when the model field declares choices and the matched entry has a coerce
function. -/
def amendedOrderKind (overrides : List String) (fld : PField) :
    Except String FieldKind :=
  if fld.name ∈ overrides then Except.ok (FieldKind.overrideF fld.name)
  else if fld.hasWtfField then Except.ok FieldKind.wtfF
  else if isInstanceOf fld.cls PClass.foreignKey then
    Except.ok (if fld.choices.isSome then FieldKind.selectQueryF
               else FieldKind.modelSelectF)
  else
    match defaultsTable.find? (fun ck => isInstanceOf fld.cls ck.1) with
    | some ck =>
      Except.ok (if choicesTruthy fld && decide (ck.1 ∈ coerceDefaults) then
                   FieldKind.selectChoicesF
                 else ck.2)
    | none =>
      Except.error ("There is not possible conversion for " ++ typeRepr fld.cls)

/-! ### Nested-form generation (`ModelConverter.convert_fields` / `form`)

Only the recursion structure matters for the termination claim: with
`include_inlines=True`, `convert_fields` builds, for every reverse relation not
filtered out by `only`/`exclude`, an inline form via `self.form(...)`, which
calls `convert_fields` again.  `depth` is threaded through but never compared
against anything, so it is omitted from the recursion state below (it cannot
stop it).  The fuel argument counts the recursive calls the Python runtime
would make; `none` means the available call depth is exceeded. -/

/-- One reverse relation of a model: the related name it is keyed by in
`model._meta.reverse_rel`, the child model, and the foreign key field's name. -/
structure RRel where
  relName : String
  child : Nat
  fkName : String
deriving DecidableEq, Repr

/-- A model, reduced to its reverse relations (scalar-field conversion cannot
cause recursion). -/
structure PModelG where
  rels : List RRel
deriving DecidableEq, Repr

/-- Character-list prefix test (avoids byte-position arithmetic). -/
def listIsPre : List Char → List Char → Bool
  | [], _ => true
  | _ :: _, [] => false
  | a :: p, b :: s => a == b && listIsPre p s

/-- `n.startswith(pre)` on strings. -/
def strStarts (s pre : String) : Bool :=
  listIsPre pre.toList s.toList

/-- `[n[len(name)+1:] for n in names if n.startswith(name + '.')]`. -/
def stripDotted (names : List String) (name : String) : List String :=
  names.filterMap (fun n =>
    if strStarts n (name ++ ".") then some (n.drop (name.length + 1)) else none)

/-- Python truthiness of the `only` argument (`None` and `[]` are falsy). -/
def onlyTruthy : Option (List String) → Bool
  | some (_ :: _) => true
  | _ => false

/-- The reverse relations `convert_fields` walks for one model: filtered by
membership in `only` when `only` is truthy, else by non-membership in
`exclude`. -/
def inlineRels (env : List PModelG) (mIdx : Nat) (only : Option (List String))
    (excl : List String) : List RRel :=
  let rels := (env.getD mIdx ⟨[]⟩).rels
  if onlyTruthy only then
    rels.filter (fun r => decide (r.relName ∈ only.getD []))
  else
    rels.filter (fun r => decide (r.relName ∉ excl))

/-- `sub_only`: `None` unless `only` is truthy, in which case the dotted
entries are stripped. -/
def subOnlyOf (only : Option (List String)) (r : RRel) : Option (List String) :=
  if onlyTruthy only then some (stripDotted (only.getD []) r.relName) else none

/-- `sub_exclude`: strip the dotted entries of `exclude` and append the foreign
key's name when absent. -/
def subExclOf (excl : List String) (r : RRel) : List String :=
  let s := stripDotted excl r.relName
  if r.fkName ∈ s then s else s ++ [r.fkName]

/-- The recursion of `convert_fields` with `include_inlines=True`, fuel-indexed.
For each reverse relation surviving the `only`/`exclude` filter, `self.form`
recurses into the child model with the derived `sub_only`/`sub_exclude`.
Returns `some ()` when generation completes within `fuel` nested calls. -/
def formGen (env : List PModelG) : Nat → Nat → Option (List String) →
    List String → Option Unit
  | 0, _, _, _ => none
  | fuel + 1, mIdx, only, excl =>
    if (inlineRels env mIdx only excl).all (fun r =>
        (formGen env fuel r.child (subOnlyOf only r) (subExclOf excl r)).isSome)
    then some ()
    else none

/-- Form generation over the model graph `env` terminates for model `mIdx`
(with the default arguments of `model_form`): some call depth suffices. -/
def FormGenTerminates (env : List PModelG) (mIdx : Nat) : Prop :=
  ∃ fuel, (formGen env fuel mIdx none []).isSome

/-! ### The save coordinator (`ModelForm.save_to` / `save_inlines`)

The database is a list of records; a record stores its model (table) identifier
and its attributes, the primary key being the attribute at the model's primary
key name.  `St.ctr` is the next auto-increment id.  Fallible steps return the
error (`raise`) together with the state reached so far; `database.atomic()`
rolls the state back when its body reports an error. -/

/-- A database record / model instance. -/
structure Rec where
  model : Nat
  attrs : List (String × Val)
deriving DecidableEq, Repr

/-- The database plus the next auto-increment primary key value. -/
structure St where
  db : List Rec
  ctr : Nat
deriving DecidableEq, Repr

/-- `instance._get_pk_value()`: the integer at the model's primary key name. -/
def recPk (pkName : String) (r : Rec) : Option Nat :=
  match lookupA r.attrs pkName with
  | some (Val.vInt n) => some n
  | _ => none

/-- `populate_obj`: write every scalar form value onto the instance (inline
`ModelListField`s populate nothing, and are kept apart from the scalar data in
the form structure below). -/
def populateAttrs (a : List (String × Val)) (data : List (String × Val)) :
    List (String × Val) :=
  data.foldl (fun acc kv => setA acc kv.1 kv.2) a

/-- `populate_obj` on a record. -/
def populateRec (r : Rec) (data : List (String × Val)) : Rec :=
  { r with attrs := populateAttrs r.attrs data }

/-- Peewee `Model.save()`: update the row in place when the primary key is set,
insert with a fresh auto-increment id otherwise.  Returns the saved record's
primary key (`_get_pk_value()` after the save). -/
def doSave (pkName : String) (r : Rec) (st : St) : St × Nat :=
  match recPk pkName r with
  | some p =>
    ({ st with
        db := st.db.map (fun q =>
          if q.model = r.model ∧ recPk pkName q = some p then r else q) }, p)
  | none =>
    let r' := { r with attrs := setA r.attrs pkName (Val.vInt st.ctr) }
    ({ db := st.db ++ [r'], ctr := st.ctr + 1 }, st.ctr)

/-- `instance.delete_instance()`: delete the row of the given model with the
given primary key. -/
def deleteRec (model : Nat) (pkName : String) (p : Nat) (st : St) : St :=
  { st with
      db := st.db.filter (fun q =>
        !(decide (q.model = model ∧ recPk pkName q = some p))) }

/-- The metadata an inline `ModelListField` carries: the foreign key field's
name, the child model it belongs to, and the child model's primary key name. -/
structure InlineMeta where
  fkName : String
  subModel : Nat
  subPkName : String
deriving DecidableEq, Repr

mutual
/-- A (sub)form as submitted: the scalar field data (a dict) plus the inline
`ModelListField`s, each holding one subform per submitted child entry. -/
inductive FormT where
  | mk : List (String × Val) → InlFields → FormT

/-- The inline `ModelListField`s of a form. -/
inductive InlFields where
  | nil : InlFields
  | cons : InlineMeta → Entries → InlFields → InlFields

/-- The entries of one inline field. -/
inductive Entries where
  | nil : Entries
  | cons : FormT → Entries → Entries
end

/-- The scalar data of a form. -/
def FormT.dataOf : FormT → List (String × Val)
  | FormT.mk d _ => d

/-- The inline fields of a form. -/
def FormT.inlsOf : FormT → InlFields
  | FormT.mk _ i => i

/-- The entries of an inline field, as a list. -/
def Entries.toList : Entries → List FormT
  | Entries.nil => []
  | Entries.cons e r => e :: Entries.toList r

/-- Build entries from a list. -/
def Entries.ofList : List FormT → Entries
  | [] => Entries.nil
  | e :: r => Entries.cons e (Entries.ofList r)

/-- `pks = [d[pk_name] for d in field.data]`: indexing each entry's data dict
with the primary key name; a missing key is a `KeyError`. -/
def entriesHavePk (pkName : String) : Entries → Bool
  | Entries.nil => true
  | Entries.cons (FormT.mk data _) rest =>
    (lookupA data pkName).isSome && entriesHavePk pkName rest

/-- `existing = {o._get_pk_value(): o for o in getattr(parent_obj,
related_name)}`: the snapshot of the submodel rows whose foreign key column
equals the parent's primary key, keyed by their primary key. -/
def existingOf (db : List Rec) (m : InlineMeta) (parentPk : Nat) :
    List (Nat × Rec) :=
  db.filterMap (fun r =>
    match recPk m.subPkName r with
    | some p =>
      if r.model = m.subModel ∧
          lookupA r.attrs m.fkName = some (Val.vInt parentPk) then
        some (p, r)
      else none
    | none => none)

/-- `data[pk_name] in existing` / `existing[data[pk_name]]`: the submitted
identifier matched against the snapshot's keys. -/
def findEx (ex : List (Nat × Rec)) (v : Val) : Option (Nat × Rec) :=
  ex.find? (fun pr => decide (Val.vInt pr.1 = v))

mutual
/-- `ModelForm.save_inlines(parent_form, parent_obj)`: walk the parent form's
inline fields, given the parent's primary key. -/
def saveInlines (parentPk : Nat) (st : St) : FormT → Option String × St
  | FormT.mk _ inls => saveFieldList parentPk st inls

/-- The `for field in inline_fields` loop.  Before each field's entry loop the
source evaluates `pks = [d[pk_name] for d in field.data]` (a `KeyError` when an
entry lacks the primary key name) and takes the `existing` snapshot. -/
def saveFieldList (parentPk : Nat) (st : St) : InlFields → Option String × St
  | InlFields.nil => (none, st)
  | InlFields.cons m es rest =>
    if entriesHavePk m.subPkName es then
      match saveEntries m parentPk (existingOf st.db m parentPk) st es with
      | (some e, st') => (some e, st')
      | (none, st') => saveFieldList parentPk st' rest
    else (some ("KeyError: " ++ m.subPkName), st)

/-- The `for formfield in field.entries` loop; the `existing` snapshot is fixed
for the whole loop. -/
def saveEntries (m : InlineMeta) (parentPk : Nat) (ex : List (Nat × Rec))
    (st : St) : Entries → Option String × St
  | Entries.nil => (none, st)
  | Entries.cons e rest =>
    match processEntry m parentPk ex st e with
    | (some err, st') => (some err, st')
    | (none, st') => saveEntries m parentPk ex st' rest

/-- The body of the entry loop of `save_inlines`: create-and-link when the
submitted identifier is `None` (skipping when the delete flag is set), else
reject an identifier outside the `existing` snapshot, reject a submitted
foreign key value differing from the parent's primary key, delete when the
delete flag is set, and otherwise populate, save and recurse into the
subform's own inline fields. -/
def processEntry (m : InlineMeta) (parentPk : Nat) (ex : List (Nat × Rec))
    (st : St) : FormT → Option String × St
  | FormT.mk data inls =>
    match lookupA data m.subPkName with
    | none => (some ("KeyError: " ++ m.subPkName), st)
    | some pv =>
      if pv = Val.vNone then
        if truthy (lookupA data "delete_") then (none, st)
        else
          let sub0 : Rec :=
            { model := m.subModel, attrs := [(m.fkName, Val.vInt parentPk)] }
          let sub1 := populateRec sub0 data
          match doSave m.subPkName sub1 st with
          | (st1, newPk) => saveFieldList newPk st1 inls
      else
        match findEx ex pv with
        | none =>
          (some ("Cannot save data to a foreign child (id " ++ valRepr pv
            ++ ")."), st)
        | some pr =>
          if getDA data m.fkName (Val.vInt parentPk) ≠ Val.vInt parentPk then
            (some "Cannot change parentage of a child", st)
          else if truthy (lookupA data "delete_") then
            (none, deleteRec m.subModel m.subPkName pr.1 st)
          else
            let sub1 := populateRec pr.2 data
            match doSave m.subPkName sub1 st with
            | (st1, savedPk) => saveFieldList savedPk st1 inls
end

/-- The body of `save_to` inside the transaction: populate the parent, save it,
then save the inline fields with the parent's (possibly fresh) primary key. -/
def saveToBody (pkName : String) (f : FormT) (obj : Rec) (st : St) :
    Option String × St :=
  let obj1 := populateRec obj f.dataOf
  match doSave pkName obj1 st with
  | (st1, pk) => saveInlines pk st1 f

/-- `database.atomic()` as a context manager: run the body; on an error, the
exception propagates and every change of the body is rolled back. -/
def atomicRun (body : St → Option String × St) (st : St) : Option String × St :=
  match body st with
  | (none, st') => (none, st')
  | (some e, _) => (some e, st)

/-- `ModelForm.save_to(obj)`: populate, save and cascade inside one
transaction. -/
def save_to (pkName : String) (f : FormT) (obj : Rec) (st : St) :
    Option String × St :=
  atomicRun (saveToBody pkName f obj) st

/-! ### Substring test (for the error-message claims) -/

/-- Whether some tail of the second list starts with `pat`. -/
def tailsHas (pat : List Char) : List Char → Bool
  | [] => listIsPre pat []
  | c :: rest => listIsPre pat (c :: rest) || tailsHas pat rest

/-- Whether `pat` occurs as a substring of `s`. -/
def containsSub (s pat : String) : Bool :=
  tailsHas pat.toList s.toList

/-! ### Concrete instances used by counterexamples and witnesses -/

/-- A nullable `CharField` with choices (for claims C5 and C8). -/
def fldNullChoices : PField :=
  { name := "color", null := true, cls := PClass.char
    choices := some [(Val.vStr "r", "Red")] }

/-- A non-nullable `CharField` with choices (for claim C8). -/
def fldChoices : PField :=
  { name := "color", cls := PClass.char
    choices := some [(Val.vStr "r", "Red")] }

/-- A nullable `CharField` without choices (witness for claim C5). -/
def fldNullChar : PField :=
  { name := "nick", null := true, cls := PClass.char }

/-- A field of a class with no conversion rule (for claim C9). -/
def fldCustom : PField :=
  { name := "foo", cls := PClass.custom "Widget" }

/-- A nullable `DateTimeField` (for claim C10: its conversion target
`WPDateTimeField` is a `FormField` subclass, so filters are dropped). -/
def fldNullDT : PField :=
  { name := "written_at", null := true, cls := PClass.dateTime }

/-- A one-model graph with a self-referential foreign key: model 0 has a
reverse relation `children` whose child is model 0 itself, via foreign key
field `parent` (for claim C6). -/
def envCyc : List PModelG := [⟨[⟨"children", 0, "parent"⟩]⟩]

/-- An acyclic two-model graph: model 0 owns children of model 1 (for the C6
witness). -/
def envAcyc : List PModelG := [⟨[⟨"children", 1, "parent"⟩]⟩, ⟨[]⟩]

/-- A rank decreasing along the reverse relations of `envAcyc`. -/
def rankAcyc : Nat → Nat := fun i => if i = 0 then 1 else 0

/-- A submitted child entry that `save_inlines` must reject: its identifier is
set and either matches no key of the `existing` snapshot, or the entry carries
a foreign key value differing from the parent's primary key. -/
def badEntry (m : InlineMeta) (parentPk : Nat) (ex : List (Nat × Rec))
    (data : List (String × Val)) : Prop :=
  ∃ pv, lookupA data m.subPkName = some pv ∧ pv ≠ Val.vNone ∧
    (findEx ex pv = none ∨
     getDA data m.fkName (Val.vInt parentPk) ≠ Val.vInt parentPk)

/-- The first row of the given model with the given primary key. -/
def findRow (db : List Rec) (model : Nat) (pkName : String) (p : Nat) :
    Option Rec :=
  db.find? (fun r => decide (r.model = model ∧ recPk pkName r = some p))

/-- The row-replacement function `doSave` maps over the database when updating
the record `r` under primary key `pv` (used to state `doSave` equations). -/
def replaceBy (pkName : String) (r : Rec) (pv : Nat) : Rec → Rec :=
  fun q => if q.model = r.model ∧ recPk pkName q = some pv then r else q

/-! Concrete records, states and forms for the save-coordinator claims.
Model 0 is the parent model, model 1 the child model; the child's foreign key
column is `owner`, both primary keys are named `id`. -/

/-- The inline field metadata of the examples. -/
def mOwn : InlineMeta := ⟨"owner", 1, "id"⟩

/-- A child record belonging to the parent with primary key 2. -/
def childOf2 : Rec := ⟨1, [("id", Val.vInt 5), ("owner", Val.vInt 2)]⟩

/-- A child record belonging to the parent with primary key 1. -/
def childOf1 : Rec :=
  ⟨1, [("id", Val.vInt 5), ("owner", Val.vInt 1), ("name", Val.vStr "a")]⟩

/-- The parent record with primary key 1. -/
def objParent1 : Rec := ⟨0, [("id", Val.vInt 1)]⟩

/-- A database holding only a child of the foreign parent 2. -/
def stForeign : St := ⟨[childOf2], 20⟩

/-- A database holding only a child of parent 1. -/
def stOwn1 : St := ⟨[childOf1], 20⟩

/-- A database holding the parent 1 and its child 5. -/
def stTwo : St := ⟨[objParent1, childOf1], 20⟩

/-- A submitted entry claiming the identifier 5 (with no other data). -/
def dataClaim5 : List (String × Val) := [("id", Val.vInt 5)]

/-- A form holding one inline field with the identifier-5 entry. -/
def formClaim5 : FormT :=
  FormT.mk [] (InlFields.cons mOwn
    (Entries.cons (FormT.mk dataClaim5 InlFields.nil) Entries.nil)
    InlFields.nil)

/-- A submitted new entry (identifier unset) carrying the foreign key value 2:
the cross-parent create the original claim says is rejected. -/
def dataEvade : List (String × Val) := [("id", Val.vNone), ("owner", Val.vInt 2)]

/-- A form holding one inline field with the foreign-key-carrying new entry. -/
def formEvade : FormT :=
  FormT.mk [] (InlFields.cons mOwn
    (Entries.cons (FormT.mk dataEvade InlFields.nil) Entries.nil)
    InlFields.nil)

/-- A submitted new entry (identifier unset, no delete flag). -/
def dataNew : List (String × Val) := [("id", Val.vNone), ("name", Val.vStr "x")]

/-- A submitted entry deleting the child with identifier 5. -/
def dataDel : List (String × Val) :=
  [("id", Val.vInt 5), ("delete_", Val.vBool true)]

/-- A form holding one inline field with the delete-5 entry. -/
def formDel : FormT :=
  FormT.mk [] (InlFields.cons mOwn
    (Entries.cons (FormT.mk dataDel InlFields.nil) Entries.nil)
    InlFields.nil)

/-- Parent form data for the idempotence example. -/
def pdataC7 : List (String × Val) := [("title", Val.vStr "u")]

/-- Child entry data for the idempotence example: update child 5's name. -/
def cdataC7 : List (String × Val) := [("id", Val.vInt 5), ("name", Val.vStr "b")]

/-- The form of the idempotence example. -/
def formC7 : FormT :=
  FormT.mk pdataC7 (InlFields.cons mOwn
    (Entries.cons (FormT.mk cdataC7 InlFields.nil) Entries.nil)
    InlFields.nil)

/-- The state after the first save of the idempotence example. -/
def stTwoAfter : St :=
  ⟨[⟨0, [("id", Val.vInt 1), ("title", Val.vStr "u")]⟩,
    ⟨1, [("id", Val.vInt 5), ("owner", Val.vInt 1), ("name", Val.vStr "b")]⟩],
   20⟩

/-! ## Helper lemmas -/

theorem listIsPre_same_append (p y : List Char) : listIsPre p (p ++ y) = true := by
  induction p with
  | nil => rfl
  | cons a p ih => simp [listIsPre, ih]

theorem tailsHas_of_isPre {pat l : List Char} (h : listIsPre pat l = true) :
    tailsHas pat l = true := by
  cases l with
  | nil => simpa [tailsHas] using h
  | cons c rest => simp [tailsHas, h]

theorem tailsHas_append_left (pat : List Char) (x : List Char) {l : List Char}
    (h : tailsHas pat l = true) : tailsHas pat (x ++ l) = true := by
  induction x with
  | nil => simpa using h
  | cons c x ih => simp [tailsHas, ih]

theorem containsSub_of_mid (x p y : String) :
    containsSub (x ++ p ++ y) p = true := by
  unfold containsSub
  have hsplit : (x ++ p ++ y).toList = x.toList ++ (p.toList ++ y.toList) := by
    simp [String.toList, List.append_assoc]
  rw [hsplit]
  exact tailsHas_append_left _ _
    (tailsHas_of_isPre (listIsPre_same_append _ _))

@[simp] theorem except_map_ok {α β γ : Type} (f : α → β) (x : α) :
    Except.map f (Except.ok x : Except γ α) = Except.ok (f x) := rfl

@[simp] theorem except_map_error {α β γ : Type} (f : α → β) (e : γ) :
    Except.map f (Except.error e : Except γ α) = Except.error e := rfl

theorem isFormFieldKind_iff (k : FieldKind) :
    isFormFieldKind k = true ↔ k = FieldKind.wpDateTimeF := by
  cases k <;> simp [isFormFieldKind]

theorem mem_of_mem_inlineRels {env : List PModelG} {mIdx : Nat}
    {only : Option (List String)} {excl : List String} {r : RRel}
    (h : r ∈ inlineRels env mIdx only excl) : r ∈ (env.getD mIdx ⟨[]⟩).rels := by
  unfold inlineRels at h
  split at h <;> exact List.mem_of_mem_filter h

/-- More fuel never loses successful form generation. -/
theorem formGen_mono (env : List PModelG) :
    ∀ f g mIdx only excl, f ≤ g →
    (formGen env f mIdx only excl).isSome = true →
    (formGen env g mIdx only excl).isSome = true := by
  intro f
  induction f with
  | zero => intro g mIdx only excl _ h; simp [formGen] at h
  | succ f ih =>
    intro g mIdx only excl hfg h
    cases g with
    | zero => omega
    | succ g =>
      simp only [formGen] at h ⊢
      split at h
      · next hall =>
        rw [if_pos]
        · rfl
        · rw [List.all_eq_true] at hall ⊢
          intro r hr
          exact ih g _ _ _ (by omega) (hall r hr)
      · simp at h

/-- When a rank function decreases along every reverse relation, `rank i + 1`
nested calls complete form generation for model `i`, whatever the
`only`/`exclude` arguments. -/
theorem formGen_of_rank (env : List PModelG) (rank : Nat → Nat)
    (hr : ∀ i r, r ∈ (env.getD i ⟨[]⟩).rels → rank r.child < rank i) :
    ∀ n i only excl, rank i < n →
    (formGen env n i only excl).isSome = true := by
  intro n
  induction n with
  | zero => intro i only excl h; omega
  | succ n ih =>
    intro i only excl hlt
    simp only [formGen]
    rw [if_pos]
    · rfl
    · rw [List.all_eq_true]
      intro r hrm
      have hrel := mem_of_mem_inlineRels hrm
      exact ih r.child _ _ (by have := hr i r hrel; omega)

/-- On the self-referential model, no amount of fuel completes generation: the
`children` relation is never excluded (the propagated excludes only ever hold
foreign key names), so every call recurses again. -/
theorem envCyc_no_fuel :
    ∀ fuel excl, "children" ∉ excl →
    (∀ e ∈ excl, strStarts e ("children" ++ ".") = false) →
    formGen envCyc fuel 0 none excl = none := by
  intro fuel
  induction fuel with
  | zero => intro excl _ _; rfl
  | succ fuel ih =>
    intro excl h1 h2
    have hinls : inlineRels envCyc 0 none excl =
        [⟨"children", 0, "parent"⟩] := by
      unfold inlineRels envCyc
      simp [onlyTruthy, List.filter, h1]
    have hstrip : stripDotted excl "children" = [] := by
      unfold stripDotted
      rw [List.filterMap_eq_nil_iff]
      intro e he
      rw [if_neg]
      rw [h2 e he]
      simp
    have hsub : subExclOf excl ⟨"children", 0, "parent"⟩ = ["parent"] := by
      unfold subExclOf
      rw [hstrip]
      simp
    have hrec : formGen envCyc fuel 0 none ["parent"] = none :=
      ih ["parent"] (by decide) (by decide)
    simp only [formGen, hinls, hsub]
    rw [if_neg]
    simp only [List.all_cons, List.all_nil, Bool.and_true]
    rw [subOnlyOf, if_neg (by simp [onlyTruthy])]
    rw [hsub, hrec]
    simp

/-- Claim C6, counterexample: on a model whose reverse relations form a cycle
(a self-referential foreign key), nested-form generation does not terminate —
no call depth suffices. -/
theorem c6_counterexample : ¬ FormGenTerminates envCyc 0 := by
  rintro ⟨fuel, h⟩
  rw [envCyc_no_fuel fuel [] (by decide) (by decide)] at h
  simp at h

/-- Claim C6 (amended): nested-form generation terminates for every model whose
reverse relations admit a decreasing rank (no cycle); on cyclic reverse
relations it does not terminate, since the tracked depth is never used to stop
the recursion. -/
theorem c6_terminates_of_rank (env : List PModelG) (rank : Nat → Nat)
    (hr : ∀ i r, r ∈ (env.getD i ⟨[]⟩).rels → rank r.child < rank i)
    (i : Nat) : FormGenTerminates env i :=
  ⟨rank i + 1, formGen_of_rank env rank hr (rank i + 1) i none [] (by omega)⟩

/-- Witness for C6 on the concrete acyclic two-model graph. -/
theorem c6_witness : FormGenTerminates envAcyc 0 :=
  c6_terminates_of_rank envAcyc rankAcyc
    (by
      intro i r hmem
      match i with
      | 0 =>
        simp only [envAcyc, List.getD] at hmem
        simp at hmem
        subst hmem
        decide
      | 1 =>
        simp [envAcyc, List.getD] at hmem
      | (n + 2) =>
        simp [envAcyc, List.getD] at hmem)
    0

/-! ## Claim C8 : selection order of the converter -/

/-- Claim C8, counterexample: a `CharField` with declared choices (no override,
no foreign key) is converted to a `SelectChoicesField`, while the procedure
stated by the claim — take the first matching entry of the ordered table —
selects `TextField`. -/
theorem c8_counterexample :
    (convert [] fldChoices).map FieldInfo.kind =
      Except.ok FieldKind.selectChoicesF ∧
    claimOrderKind [] fldChoices = Except.ok FieldKind.textF ∧
    FieldKind.selectChoicesF ≠ FieldKind.textF := by
  refine ⟨rfl, rfl, by decide⟩

/-- Claim C8 (amended): the converter selects the form-field type by checking,
in this order: the name-override hook; then the field-class `wtf_field` hook;
then foreign-key special-casing (choice-list query field when the foreign key
declares choices, else a free related-model selection field); then the first
matching entry of the ordered default table, refined to a choice-select field
when the model field declares choices and the matched entry has a coerce
function. -/
theorem c8_selection_order (ov : List String) (fld : PField) :
    (convert ov fld).map FieldInfo.kind = amendedOrderKind ov fld := by
  unfold convert amendedOrderKind
  by_cases h1 : fld.name ∈ ov
  · simp [h1]
  · rw [if_neg h1, if_neg h1]
    by_cases h2 : fld.hasWtfField = true
    · simp [h2]
    · rw [if_neg h2, if_neg h2]
      by_cases h3 : isInstanceOf fld.cls PClass.foreignKey = true
      · simp [h3, handle_foreign_key]
      · rw [if_neg h3, if_neg h3]
        cases hfind : defaultsTable.find? (fun ck => isInstanceOf fld.cls ck.1) with
        | none => simp
        | some ck =>
          by_cases h4 : (choicesTruthy fld && decide (ck.1 ∈ coerceDefaults)) = true
          · simp [h4]
          · simp [h4]

/-! ## Claim C9 : the unconvertible-field error -/

/-- Claim C9, counterexample: a field named `foo` of an unknown class `Widget`
is rejected with a message that shows the class but does not name the field. -/
theorem c9_counterexample :
    convert [] fldCustom =
      Except.error "There is not possible conversion for <class Widget>" ∧
    containsSub "There is not possible conversion for <class Widget>" "foo" =
      false := by
  refine ⟨rfl, by decide⟩

/-- Claim C9 (amended): when no conversion rule matches — no name override, no
`wtf_field` hook, not a foreign key, no `isinstance` match in the default
table — the converter raises an error whose message names the unconvertible
field's declared type (not the field's name). -/
theorem c9_unconvertible_error (ov : List String) (fld : PField)
    (h1 : fld.name ∉ ov) (h2 : fld.hasWtfField = false)
    (h3 : isInstanceOf fld.cls PClass.foreignKey = false)
    (h4 : defaultsTable.find? (fun ck => isInstanceOf fld.cls ck.1) = none) :
    convert ov fld =
      Except.error ("There is not possible conversion for " ++ typeRepr fld.cls) ∧
    containsSub ("There is not possible conversion for " ++ typeRepr fld.cls)
      fld.cls.pyName = true := by
  constructor
  · simp [convert, h1, h2, h3, h4]
  · have hmsg : "There is not possible conversion for " ++ typeRepr fld.cls =
        "There is not possible conversion for <class " ++ fld.cls.pyName ++ ">" := by
      simp [typeRepr]
      rfl
    rw [hmsg]
    exact containsSub_of_mid _ _ _

/-- Witness for C9 at the concrete unknown class. -/
theorem c9_witness :
    convert [] fldCustom =
      Except.error ("There is not possible conversion for " ++ typeRepr fldCustom.cls) ∧
    containsSub ("There is not possible conversion for " ++ typeRepr fldCustom.cls)
      fldCustom.cls.pyName = true :=
  c9_unconvertible_error [] fldCustom (by decide) rfl rfl rfl

/-! ## Claim C5 : Optional validator on nullable fields -/

/-- Claim C5, counterexample: a nullable `CharField` that declares choices gets
no `Optional` validator — it gets a `Required` one, so omission is a
validation error. -/
theorem c5_counterexample :
    fldNullChoices.null = true ∧
    (convert [] fldNullChoices).map FieldInfo.validators =
      Except.ok [VKind.requiredV] ∧
    VKind.optionalV ∉ [VKind.requiredV] := by
  refine ⟨rfl, rfl, by decide⟩

/-- Claim C5 (amended): for every nullable field that declares no choices the
converter attaches an `Optional` validator, so omission of a value yields no
validation error; a nullable field with choices gets none (and a `Required`
one when its class is in the required tuple). -/
theorem c5_nullable_optional (ov : List String) (fld : PField) (fi : FieldInfo)
    (h1 : fld.null = true) (h2 : choicesTruthy fld = false)
    (h : convert ov fld = Except.ok fi) :
    VKind.optionalV ∈ fi.validators := by
  unfold convert at h
  rw [h1, h2] at h
  simp only [Bool.true_or, Bool.not_false, Bool.true_and, if_true] at h
  by_cases g1 : fld.name ∈ ov
  · rw [if_pos g1] at h
    cases h
    simp
  · rw [if_neg g1] at h
    by_cases g2 : fld.hasWtfField = true
    · rw [if_pos g2] at h
      cases h
      simp
    · rw [if_neg g2] at h
      by_cases g3 : isInstanceOf fld.cls PClass.foreignKey = true
      · rw [if_pos g3] at h
        cases h
        simp [handle_foreign_key]
      · rw [if_neg g3] at h
        cases hfind : defaultsTable.find? (fun ck => isInstanceOf fld.cls ck.1) with
        | none => rw [hfind] at h; cases h
        | some ck =>
          rw [hfind] at h
          by_cases g4 : (choicesTruthy fld && decide (ck.1 ∈ coerceDefaults)) = true
          · simp only [g4, if_true] at h
            cases h
            simp
          · simp only [g4, if_false, Bool.false_eq_true] at h
            cases h
            simp

/-- Witness for C5: the nullable choice-free `CharField`. -/
theorem c5_witness :
    fldNullChar.null = true ∧ choicesTruthy fldNullChar = false ∧
    VKind.optionalV ∈
      ({ name := "nick", kind := FieldKind.textF, label := ""
         validators := [VKind.optionalV], filters := [FilterKind.nullFilter]
         default := none, description := "" } : FieldInfo).validators :=
  ⟨rfl, rfl, c5_nullable_optional [] fldNullChar _ rfl rfl rfl⟩

/-! ## Claim C10 : the empty-string-to-None filter -/

/-- Claim C10, counterexample: for a nullable `DateTimeField` the generated
form field carries no filters at all — the conversion target is a `FormField`
subclass, for which `convert` pops the filters. -/
theorem c10_counterexample :
    fldNullDT.null = true ∧
    (convert [] fldNullDT).map FieldInfo.filters =
      Except.ok ([] : List FilterKind) := by
  refine ⟨rfl, rfl⟩

/-- Claim C10 (amended): the converter attaches the empty-string-to-None filter
to every nullable field except those converted to the nested date-time form
field (a `FormField` subclass, whose filters are dropped); non-nullable fields
never get the filter; and the filter maps the empty string to `None` and
leaves every other value unchanged. -/
theorem c10_null_filter (ov : List String) (fld : PField) (fi : FieldInfo)
    (h : convert ov fld = Except.ok fi) :
    fi.filters = (if fi.kind = FieldKind.wpDateTimeF then []
                  else if fld.null then [FilterKind.nullFilter] else []) ∧
    handle_null_filter (Val.vStr "") = Val.vNone ∧
    (∀ v, v ≠ Val.vStr "" → handle_null_filter v = v) := by
  refine ⟨?_, rfl, fun v hv => by simp [handle_null_filter, hv]⟩
  have key : ∀ ck ∈ defaultsTable,
      (decide (ck.1 ∈ coerceDefaults) : Bool) = true →
      isFormFieldKind ck.2 = false := by decide
  unfold convert at h
  by_cases g1 : fld.name ∈ ov
  · rw [if_pos g1] at h
    cases h
    simp
  · rw [if_neg g1] at h
    by_cases g2 : fld.hasWtfField = true
    · rw [if_pos g2] at h
      cases h
      simp
    · rw [if_neg g2] at h
      by_cases g3 : isInstanceOf fld.cls PClass.foreignKey = true
      · rw [if_pos g3] at h
        cases h
        simp only [handle_foreign_key]
        by_cases g4 : fld.choices.isSome = true <;> simp [g4]
      · rw [if_neg g3] at h
        cases hfind : defaultsTable.find? (fun ck => isInstanceOf fld.cls ck.1) with
        | none => rw [hfind] at h; cases h
        | some ck =>
          rw [hfind] at h
          have hmem := List.mem_of_find?_eq_some hfind
          by_cases g4 : (choicesTruthy fld && decide (ck.1 ∈ coerceDefaults)) = true
          · simp only [g4, if_true] at h
            have hnf : isFormFieldKind ck.2 = false :=
              key _ hmem (by
                have := g4
                simp only [Bool.and_eq_true] at this
                exact this.2)
            cases h
            simp [hnf]
          · simp only [g4, if_false, Bool.false_eq_true] at h
            cases h
            by_cases g5 : isFormFieldKind ck.2 = true
            · rw [(isFormFieldKind_iff ck.2).mp g5]
              simp [g5, isFormFieldKind]
            · have : ¬(ck.2 = FieldKind.wpDateTimeF) := by
                intro hk
                exact g5 ((isFormFieldKind_iff ck.2).mpr hk)
              simp only [Bool.not_eq_true] at g5
              simp [g5, this]

/-! ## Association-list lemmas -/

@[simp] theorem lookupA_nil (k : String) : lookupA [] k = none := rfl

theorem lookupA_cons (k' : String) (v : Val) (rest : List (String × Val))
    (k : String) :
    lookupA ((k', v) :: rest) k = if k' = k then some v else lookupA rest k :=
  rfl

@[simp] theorem populateAttrs_nil (a : List (String × Val)) :
    populateAttrs a [] = a := rfl

theorem populateAttrs_cons (a : List (String × Val)) (kv : String × Val)
    (d : List (String × Val)) :
    populateAttrs a (kv :: d) = populateAttrs (setA a kv.1 kv.2) d := rfl

theorem lookupA_setA_self (a : List (String × Val)) (k : String) (v : Val) :
    lookupA (setA a k v) k = some v := by
  induction a with
  | nil => simp [setA, lookupA]
  | cons kv rest ih =>
    rcases kv with ⟨k', v'⟩
    by_cases h : k' = k
    · simp [setA, h, lookupA]
    · simp [setA, h, lookupA, ih]

theorem lookupA_setA_ne (a : List (String × Val)) (k k' : String) (v : Val)
    (h : k' ≠ k) : lookupA (setA a k v) k' = lookupA a k' := by
  have hne : ¬(k = k') := fun hk => h hk.symm
  induction a with
  | nil =>
    simp only [setA, lookupA_cons, lookupA_nil]
    rw [if_neg hne]
  | cons kv rest ih =>
    rcases kv with ⟨k0, v0⟩
    simp only [setA]
    by_cases h0 : k0 = k
    · subst h0
      rw [if_pos rfl, lookupA_cons, lookupA_cons, if_neg hne, if_neg hne]
    · rw [if_neg h0, lookupA_cons, lookupA_cons, ih]

theorem not_mem_of_lookupA_none {a : List (String × Val)} {k : String}
    (h : lookupA a k = none) : k ∉ a.map Prod.fst := by
  induction a with
  | nil => simp
  | cons kv rest ih =>
    rcases kv with ⟨k0, v0⟩
    rw [lookupA_cons] at h
    by_cases h0 : k0 = k
    · rw [if_pos h0] at h; cases h
    · rw [if_neg h0] at h
      simp only [List.map_cons, List.mem_cons, not_or]
      exact ⟨fun hk => h0 hk.symm, ih h⟩

theorem lookupA_none_of_not_mem {a : List (String × Val)} {k : String}
    (h : k ∉ a.map Prod.fst) : lookupA a k = none := by
  induction a with
  | nil => rfl
  | cons kv rest ih =>
    rcases kv with ⟨k0, v0⟩
    simp only [List.map_cons, List.mem_cons, not_or] at h
    rw [lookupA_cons, if_neg (fun hk => h.1 hk.symm)]
    exact ih h.2

theorem lookupA_populate_not_mem (a d : List (String × Val)) (k : String)
    (h : k ∉ d.map Prod.fst) : lookupA (populateAttrs a d) k = lookupA a k := by
  induction d generalizing a with
  | nil => rfl
  | cons kv d ih =>
    rw [populateAttrs_cons]
    simp only [List.map_cons, List.mem_cons, not_or] at h
    rw [ih _ h.2, lookupA_setA_ne _ _ _ _ h.1]

theorem lookupA_populate_mem (a d : List (String × Val)) (k : String) (v : Val)
    (hnd : (d.map Prod.fst).Nodup) (h : lookupA d k = some v) :
    lookupA (populateAttrs a d) k = some v := by
  induction d generalizing a with
  | nil => cases h
  | cons kv d ih =>
    rcases kv with ⟨k1, v1⟩
    rw [populateAttrs_cons]
    simp only [List.map_cons, List.nodup_cons] at hnd
    rw [lookupA_cons] at h
    by_cases hk : k1 = k
    · rw [if_pos hk] at h
      injection h with h
      subst hk
      subst h
      rw [lookupA_populate_not_mem _ _ _ hnd.1]
      exact lookupA_setA_self _ _ _
    · rw [if_neg hk] at h
      exact ih _ hnd.2 h

theorem recPk_eq_some_iff (pkName : String) (r : Rec) (p : Nat) :
    recPk pkName r = some p ↔ lookupA r.attrs pkName = some (Val.vInt p) := by
  unfold recPk
  rcases h : lookupA r.attrs pkName with _ | v
  · simp
  · cases v <;> simp

theorem map_fst_setA (a : List (String × Val)) (k : String) (v : Val) :
    (setA a k v).map Prod.fst =
      if k ∈ a.map Prod.fst then a.map Prod.fst
      else a.map Prod.fst ++ [k] := by
  induction a with
  | nil => simp [setA]
  | cons kv rest ih =>
    rcases kv with ⟨k0, v0⟩
    simp only [setA]
    by_cases h0 : k0 = k
    · subst h0
      simp
    · rw [if_neg h0]
      simp only [List.map_cons]
      rw [ih]
      by_cases hk : k ∈ rest.map Prod.fst
      · rw [if_pos hk, if_pos (by simp [hk])]
      · rw [if_neg hk, if_neg (by
          simp only [List.mem_cons, not_or]
          exact ⟨fun h => h0 h.symm, hk⟩)]
        simp

theorem mem_map_fst_setA_self (a : List (String × Val)) (k : String) (v : Val) :
    k ∈ (setA a k v).map Prod.fst := by
  rw [map_fst_setA]
  split
  · next hmem => exact hmem
  · exact List.mem_append_right _ (by simp)

theorem nodup_setA (a : List (String × Val)) (k : String) (v : Val)
    (h : (a.map Prod.fst).Nodup) : ((setA a k v).map Prod.fst).Nodup := by
  rw [map_fst_setA]
  split
  · exact h
  · next hk =>
    refine List.Nodup.append h (List.nodup_singleton _) ?_
    intro x hx hxk
    rw [List.mem_singleton] at hxk
    exact hk (hxk ▸ hx)

theorem mem_populate_of_mem (a d : List (String × Val)) (j : String)
    (h : j ∈ a.map Prod.fst) : j ∈ (populateAttrs a d).map Prod.fst := by
  induction d generalizing a with
  | nil => exact h
  | cons kv d ih =>
    rw [populateAttrs_cons]
    apply ih
    rw [map_fst_setA]
    split
    · exact h
    · exact List.mem_append_left _ h

theorem nodup_populate (a d : List (String × Val))
    (h : (a.map Prod.fst).Nodup) :
    ((populateAttrs a d).map Prod.fst).Nodup := by
  induction d generalizing a with
  | nil => exact h
  | cons kv d ih =>
    rw [populateAttrs_cons]
    exact ih _ (nodup_setA _ _ _ h)

theorem setA_eq_of_lookup (a : List (String × Val)) (k : String) (v : Val)
    (h : lookupA a k = some v) : setA a k v = a := by
  induction a with
  | nil => cases h
  | cons kv rest ih =>
    rcases kv with ⟨k0, v0⟩
    rw [lookupA_cons] at h
    simp only [setA]
    by_cases h0 : k0 = k
    · rw [if_pos h0] at h
      injection h with h
      subst h0
      subst h
      rw [if_pos rfl]
    · rw [if_neg h0] at h
      rw [if_neg h0, ih h]

theorem assoc_ext : ∀ (a b : List (String × Val)),
    (a.map Prod.fst).Nodup → a.map Prod.fst = b.map Prod.fst →
    (∀ j, lookupA a j = lookupA b j) → a = b := by
  intro a
  induction a with
  | nil =>
    intro b _ hfst _
    cases b with
    | nil => rfl
    | cons kv b => simp at hfst
  | cons kv rest ih =>
    intro b hnd hfst hl
    rcases kv with ⟨k, v⟩
    cases b with
    | nil => simp at hfst
    | cons kv2 b =>
      rcases kv2 with ⟨k2, v2⟩
      simp only [List.map_cons, List.cons.injEq] at hfst
      obtain ⟨hk, htl⟩ := hfst
      subst hk
      have hv : v = v2 := by
        have hlk := hl k
        rw [lookupA_cons, lookupA_cons, if_pos rfl, if_pos rfl] at hlk
        injection hlk
      subst hv
      simp only [List.map_cons, List.nodup_cons] at hnd
      congr 1
      apply ih b hnd.2 htl
      intro j
      by_cases hj : k = j
      · subst hj
        rw [lookupA_none_of_not_mem hnd.1,
          lookupA_none_of_not_mem (htl ▸ hnd.1)]
      · have hlj := hl j
        rw [lookupA_cons, lookupA_cons, if_neg hj, if_neg hj] at hlj
        exact hlj

theorem populate_congr : ∀ (d a b : List (String × Val)),
    (a.map Prod.fst).Nodup → (b.map Prod.fst).Nodup →
    a.map Prod.fst = b.map Prod.fst →
    (∀ j, j ∉ d.map Prod.fst → lookupA a j = lookupA b j) →
    populateAttrs a d = populateAttrs b d := by
  intro d
  induction d with
  | nil =>
    intro a b hna _ hfst hl
    exact assoc_ext a b hna hfst (fun j => hl j (by simp))
  | cons kv d ih =>
    intro a b hna hnb hfst hl
    rw [populateAttrs_cons, populateAttrs_cons]
    apply ih _ _ (nodup_setA _ _ _ hna) (nodup_setA _ _ _ hnb)
      (by rw [map_fst_setA, map_fst_setA, hfst])
    intro j hj
    by_cases hjk : j = kv.1
    · subst hjk
      rw [lookupA_setA_self, lookupA_setA_self]
    · rw [lookupA_setA_ne _ _ _ _ hjk, lookupA_setA_ne _ _ _ _ hjk]
      apply hl
      simp only [List.map_cons, List.mem_cons, not_or]
      exact ⟨hjk, hj⟩

theorem populate_idem : ∀ (d a : List (String × Val)),
    (a.map Prod.fst).Nodup →
    populateAttrs (populateAttrs a d) d = populateAttrs a d := by
  intro d
  induction d with
  | nil => intro a _; rfl
  | cons kv d ih =>
    intro a hna
    rcases kv with ⟨k, v⟩
    have hnb : ((setA a k v).map Prod.fst).Nodup := nodup_setA _ _ _ hna
    show populateAttrs (setA (populateAttrs (setA a k v) d) k v) d =
      populateAttrs (setA a k v) d
    by_cases hk : k ∈ d.map Prod.fst
    · have hstep : populateAttrs (setA (populateAttrs (setA a k v) d) k v) d =
          populateAttrs (populateAttrs (setA a k v) d) d := by
        apply populate_congr d _ _
          (nodup_setA _ _ _ (nodup_populate _ _ hnb))
          (nodup_populate _ _ hnb)
          (by
            rw [map_fst_setA,
              if_pos (mem_populate_of_mem _ _ _ (mem_map_fst_setA_self a k v))])
        intro j hj
        by_cases hjk : j = k
        · subst hjk
          exact absurd hk hj
        · rw [lookupA_setA_ne _ _ _ _ hjk]
      rw [hstep, ih _ hnb]
    · have hlook : lookupA (populateAttrs (setA a k v) d) k = some v := by
        rw [lookupA_populate_not_mem _ _ _ hk]
        exact lookupA_setA_self _ _ _
      rw [setA_eq_of_lookup _ _ _ hlook, ih _ hnb]

theorem populateRec_idem (r : Rec) (d : List (String × Val))
    (h : (r.attrs.map Prod.fst).Nodup) :
    populateRec (populateRec r d) d = populateRec r d := by
  unfold populateRec
  simp only [Rec.mk.injEq]
  exact ⟨trivial, populate_idem d r.attrs h⟩

theorem doSave_update (pkName : String) (r : Rec) (s : St) (pv : Nat)
    (h : recPk pkName r = some pv) :
    doSave pkName r s = (⟨s.db.map (replaceBy pkName r pv), s.ctr⟩, pv) := by
  unfold doSave replaceBy
  rw [h]

theorem doSave_insert (pkName : String) (r : Rec) (s : St)
    (h : recPk pkName r = none) :
    doSave pkName r s =
      (⟨s.db ++ [{ r with attrs := setA r.attrs pkName (Val.vInt s.ctr) }],
        s.ctr + 1⟩, s.ctr) := by
  unfold doSave
  rw [h]

theorem replaceBy_idem (pkName : String) (r : Rec) (pv : Nat) (x : Rec) :
    replaceBy pkName r pv (replaceBy pkName r pv x) = replaceBy pkName r pv x := by
  unfold replaceBy
  by_cases h : x.model = r.model ∧ recPk pkName x = some pv
  · rw [if_pos h, ite_self]
  · rw [if_neg h, if_neg h]

theorem find?_eq_of_mem_unique {α : Type} (p : α → Bool) (l : List α) (x : α)
    (hx : x ∈ l) (hpx : p x = true)
    (huniq : ∀ y ∈ l, p y = true → y = x) : l.find? p = some x := by
  induction l with
  | nil => cases hx
  | cons a l ih =>
    by_cases hpa : p a = true
    · rw [List.find?_cons_of_pos _ hpa, huniq a (by simp) hpa]
    · rw [List.find?_cons_of_neg _ hpa]
      apply ih
      · rcases List.mem_cons.mp hx with h | h
        · subst h; exact absurd hpx hpa
        · exact h
      · intro y hy hpy
        exact huniq y (List.mem_cons_of_mem _ hy) hpy

theorem find?_append_none {α : Type} (p : α → Bool) (l1 l2 : List α)
    (h2 : ∀ y ∈ l2, p y = false) : (l1 ++ l2).find? p = l1.find? p := by
  induction l1 with
  | nil =>
    simp only [List.nil_append, List.find?_nil]
    exact List.find?_eq_none.mpr (fun y hy => by rw [h2 y hy]; simp)
  | cons a l ih =>
    by_cases hpa : p a = true
    · rw [List.cons_append, List.find?_cons_of_pos _ hpa,
        List.find?_cons_of_pos _ hpa]
    · rw [List.cons_append, List.find?_cons_of_neg _ hpa,
        List.find?_cons_of_neg _ hpa, ih]

theorem mem_existingOf {db : List Rec} {m : InlineMeta} {parentPk : Nat}
    {pr : Nat × Rec} (h : pr ∈ existingOf db m parentPk) :
    pr.2 ∈ db ∧ pr.2.model = m.subModel ∧
    recPk m.subPkName pr.2 = some pr.1 ∧
    lookupA pr.2.attrs m.fkName = some (Val.vInt parentPk) := by
  unfold existingOf at h
  rcases List.mem_filterMap.mp h with ⟨x, hx, hfx⟩
  split at hfx
  · next px hrx =>
    split at hfx
    · next hcond =>
      injection hfx with hfx
      subst hfx
      exact ⟨hx, hcond.1, hrx, hcond.2⟩
    · cases hfx
  · cases hfx

theorem mem_existingOf_intro {db : List Rec} {m : InlineMeta} {parentPk : Nat}
    {x : Rec} {px : Nat} (hx : x ∈ db) (hm : x.model = m.subModel)
    (hpk : recPk m.subPkName x = some px)
    (hfk : lookupA x.attrs m.fkName = some (Val.vInt parentPk)) :
    (px, x) ∈ existingOf db m parentPk := by
  unfold existingOf
  apply List.mem_filterMap.mpr
  refine ⟨x, hx, ?_⟩
  simp only [hpk]
  rw [if_pos ⟨hm, hfk⟩]

/-- The create branch of the entry loop, for an arbitrary `existing` snapshot:
a new record is built, linked, populated and inserted with a fresh id. -/
theorem processEntry_create (m : InlineMeta) (parentPk : Nat)
    (ex : List (Nat × Rec)) (st : St) (data : List (String × Val))
    (hpk : lookupA data m.subPkName = some Val.vNone)
    (hnd : (data.map Prod.fst).Nodup)
    (hdel : truthy (lookupA data "delete_") = false) :
    processEntry m parentPk ex st (FormT.mk data InlFields.nil) =
      (none, ⟨st.db ++ [⟨m.subModel,
        setA (populateAttrs [(m.fkName, Val.vInt parentPk)] data) m.subPkName
          (Val.vInt st.ctr)⟩], st.ctr + 1⟩) := by
  have hlk : lookupA (populateAttrs [(m.fkName, Val.vInt parentPk)] data)
      m.subPkName = some Val.vNone :=
    lookupA_populate_mem _ _ _ _ hnd hpk
  have hrecpk : recPk m.subPkName
      (populateRec ⟨m.subModel, [(m.fkName, Val.vInt parentPk)]⟩ data) = none := by
    unfold recPk populateRec
    rw [hlk]
  simp only [processEntry, hpk]
  rw [if_pos trivial]
  rw [if_neg (by rw [hdel]; exact Bool.false_ne_true)]
  simp only [doSave, hrecpk]
  simp [saveFieldList, populateRec]

/-- The update branch of the entry loop, for an arbitrary `existing` snapshot:
the matched record is populated and saved in place. -/
theorem processEntry_update (m : InlineMeta) (parentPk : Nat)
    (ex : List (Nat × Rec)) (st : St) (data : List (String × Val)) (q : Nat)
    (r0 : Rec)
    (hpk : lookupA data m.subPkName = some (Val.vInt q))
    (hfe : findEx ex (Val.vInt q) = some (q, r0))
    (hfkd : lookupA data m.fkName = none)
    (hdel : truthy (lookupA data "delete_") = false)
    (hnd : (data.map Prod.fst).Nodup) :
    processEntry m parentPk ex st (FormT.mk data InlFields.nil) =
      (none, ⟨st.db.map (replaceBy m.subPkName (populateRec r0 data) q),
        st.ctr⟩) := by
  have hsub1 : recPk m.subPkName (populateRec r0 data) = some q := by
    rw [recPk_eq_some_iff]
    exact lookupA_populate_mem _ _ _ _ hnd hpk
  have hgd : ¬(getDA data m.fkName (Val.vInt parentPk) ≠ Val.vInt parentPk) := by
    unfold getDA
    rw [hfkd]
    intro hne
    exact hne rfl
  have h1 : ¬(Val.vInt q = Val.vNone) := by simp
  have hdel' : ¬(truthy (lookupA data "delete_") = true) := by
    rw [hdel]
    exact Bool.false_ne_true
  simp only [processEntry, hpk, hfe, if_neg h1, if_neg hgd, if_neg hdel']
  rw [doSave_update _ _ _ _ hsub1]
  simp [saveFieldList]

/-- A one-entry inline field processes exactly as its entry does (the entry's
data has the primary key name, so the `pks` precomputation passes). -/
theorem saveFieldList_single (m : InlineMeta) (parentPk : Nat) (st : St)
    (data : List (String × Val)) (inls : InlFields)
    (hpk : (lookupA data m.subPkName).isSome = true) :
    saveFieldList parentPk st (InlFields.cons m
      (Entries.cons (FormT.mk data inls) Entries.nil) InlFields.nil) =
      processEntry m parentPk (existingOf st.db m parentPk) st
        (FormT.mk data inls) := by
  have hek : entriesHavePk m.subPkName
      (Entries.cons (FormT.mk data inls) Entries.nil) = true := by
    simp [entriesHavePk, hpk]
  simp only [saveFieldList]
  rw [if_pos hek]
  rcases hpe : processEntry m parentPk (existingOf st.db m parentPk) st
      (FormT.mk data inls) with ⟨e, st'⟩
  cases e
  · simp [saveEntries, hpe, saveFieldList]
  · simp [saveEntries, hpe]

/-- The body of `save_to`, rewritten: the parent is populated and updated in
place (its primary key is set and the parent form carries no primary key
field), then the inline fields are walked. -/
theorem saveToBody_eq (pkName : String) (pdata : List (String × Val))
    (inls : InlFields) (obj : Rec) (st : St) (p : Nat)
    (hopk : recPk pkName obj = some p)
    (hppk : lookupA pdata pkName = none) :
    saveToBody pkName (FormT.mk pdata inls) obj st =
      saveFieldList p ⟨st.db.map (replaceBy pkName (populateRec obj pdata) p),
        st.ctr⟩ inls := by
  have hrecP : recPk pkName (populateRec obj pdata) = some p := by
    rw [recPk_eq_some_iff]
    show lookupA (populateAttrs obj.attrs pdata) pkName = some (Val.vInt p)
    rw [lookupA_populate_not_mem _ _ _ (not_mem_of_lookupA_none hppk)]
    exact (recPk_eq_some_iff _ _ _).mp hopk
  unfold saveToBody
  simp only [FormT.dataOf, doSave_update _ _ _ _ hrecP, saveInlines]

theorem save_to_of_body_none (pkName : String) (f : FormT) (obj : Rec)
    (st st' : St) (h : saveToBody pkName f obj st = (none, st')) :
    save_to pkName f obj st = (none, st') := by
  unfold save_to atomicRun
  rw [h]

theorem save_to_fst (pkName : String) (f : FormT) (obj : Rec) (st : St) :
    (save_to pkName f obj st).1 = (saveToBody pkName f obj st).1 := by
  unfold save_to atomicRun
  rcases h : saveToBody pkName f obj st with ⟨e, st'⟩
  cases e <;> rfl

theorem replaceBy_pos {pkName : String} {r : Rec} {pv : Nat} {x : Rec}
    (h : x.model = r.model ∧ recPk pkName x = some pv) :
    replaceBy pkName r pv x = r := by
  unfold replaceBy
  exact if_pos h

theorem replaceBy_neg {pkName : String} {r : Rec} {pv : Nat} {x : Rec}
    (h : ¬(x.model = r.model ∧ recPk pkName x = some pv)) :
    replaceBy pkName r pv x = x := by
  unfold replaceBy
  exact if_neg h

/-! ## Claim C2 : atomicity of `save_to` -/

/-- Claim C2: the entire save-and-cascade of `save_to` runs inside one
`database.atomic()` scope, so when any step raises, the state is unchanged. -/
theorem c2_transactional_save (pkName : String) (f : FormT) (obj : Rec)
    (st : St) (h : (save_to pkName f obj st).1.isSome = true) :
    (save_to pkName f obj st).2 = st := by
  unfold save_to atomicRun at h ⊢
  rcases hb : saveToBody pkName f obj st with ⟨e, st'⟩
  rw [hb] at h
  cases e
  · simp at h
  · rfl

/-- Witness for C2: a save that raises (ownership error) leaves the concrete
state unchanged. -/
theorem c2_witness :
    (save_to "id" formClaim5 objParent1 stForeign).1.isSome = true ∧
    (save_to "id" formClaim5 objParent1 stForeign).2 = stForeign :=
  ⟨by decide,
   c2_transactional_save "id" formClaim5 objParent1 stForeign (by decide)⟩

/-! ## Claim C1 : rejection of cross-parent child submissions -/

theorem processEntry_of_bad {m : InlineMeta} {parentPk : Nat}
    {ex : List (Nat × Rec)} {data : List (String × Val)} (st : St)
    (inls : InlFields) (hbad : badEntry m parentPk ex data) :
    (processEntry m parentPk ex st (FormT.mk data inls)).1.isSome = true ∧
    (processEntry m parentPk ex st (FormT.mk data inls)).2 = st := by
  obtain ⟨pv, hpv, hne, hrej⟩ := hbad
  simp only [processEntry, hpv]
  rw [if_neg hne]
  cases hfe : findEx ex pv with
  | none => simp
  | some pr =>
    rcases hrej with hrej | hrej
    · rw [hfe] at hrej; cases hrej
    · simp only [hfe]
      rw [if_pos hrej]
      simp

theorem saveEntries_of_bad {m : InlineMeta} {parentPk : Nat}
    {ex : List (Nat × Rec)} {data : List (String × Val)} (inls : InlFields)
    (st : St) (es1 es2 : List FormT) (hbad : badEntry m parentPk ex data) :
    (saveEntries m parentPk ex st
      (Entries.ofList (es1 ++ FormT.mk data inls :: es2))).1.isSome = true := by
  induction es1 generalizing st with
  | nil =>
    simp only [List.nil_append, Entries.ofList, saveEntries]
    rcases hp : processEntry m parentPk ex st (FormT.mk data inls) with ⟨e, st'⟩
    have herr := (processEntry_of_bad st inls hbad).1
    rw [hp] at herr
    cases e
    · cases herr
    · simp
  | cons e0 es1 ih =>
    simp only [List.cons_append, Entries.ofList, saveEntries]
    rcases hp : processEntry m parentPk ex st e0 with ⟨e, st'⟩
    cases e
    · exact ih st'
    · simp

/-- Claim C1 (amended): a submitted child entry whose identifier is set and
either matches no record of the parent's existing related set, or comes with a
foreign key value differing from the parent's primary key, makes
`save_inlines` raise, and that entry's data is never applied: the entry's
processing reports the error with the state unchanged.  (A new entry — with an
unset identifier — carrying a foreign key value of a different parent is
created without error; see the counterexample.) -/
theorem c1_reject_foreign (m : InlineMeta) (parentPk : Nat) (st : St)
    (data : List (String × Val)) (inls : InlFields)
    (hbad : badEntry m parentPk (existingOf st.db m parentPk) data) :
    (processEntry m parentPk (existingOf st.db m parentPk) st
      (FormT.mk data inls)).1.isSome = true ∧
    (processEntry m parentPk (existingOf st.db m parentPk) st
      (FormT.mk data inls)).2 = st ∧
    ∀ (pd : List (String × Val)) (rest : InlFields) (es1 es2 : List FormT),
      (saveInlines parentPk st (FormT.mk pd (InlFields.cons m
        (Entries.ofList (es1 ++ FormT.mk data inls :: es2)) rest))).1.isSome
        = true := by
  refine ⟨(processEntry_of_bad st inls hbad).1,
    (processEntry_of_bad st inls hbad).2, ?_⟩
  intro pd rest es1 es2
  simp only [saveInlines, saveFieldList]
  by_cases hk : entriesHavePk m.subPkName
      (Entries.ofList (es1 ++ FormT.mk data inls :: es2)) = true
  · rw [if_pos hk]
    rcases hs : saveEntries m parentPk (existingOf st.db m parentPk) st
        (Entries.ofList (es1 ++ FormT.mk data inls :: es2)) with ⟨e, st'⟩
    have herr := saveEntries_of_bad inls st es1 es2 hbad
    rw [hs] at herr
    cases e
    · cases herr
    · simp
  · rw [if_neg hk]
    rfl

/-- Claim C1, counterexample: a submitted child entry with an unset identifier
that carries the foreign key value 2 — different from the parent's primary
key 1 — raises no error, and its data is applied: a new record with foreign
key 2 is persisted. -/
theorem c1_counterexample :
    getDA dataEvade mOwn.fkName (Val.vInt 1) ≠ Val.vInt 1 ∧
    (saveInlines 1 ⟨[], 10⟩ formEvade).1 = none ∧
    (saveInlines 1 ⟨[], 10⟩ formEvade).2 =
      ⟨[⟨1, [("owner", Val.vInt 2), ("id", Val.vInt 10)]⟩], 11⟩ ∧
    lookupA [("owner", Val.vInt 2), ("id", Val.vInt 10)] "owner" =
      some (Val.vInt 2) := by
  refine ⟨by decide, rfl, rfl, rfl⟩

/-- Witness for C1 on the concrete foreign child. -/
theorem c1_witness :
    (processEntry mOwn 1 (existingOf stForeign.db mOwn 1) stForeign
      (FormT.mk dataClaim5 InlFields.nil)).1.isSome = true ∧
    (processEntry mOwn 1 (existingOf stForeign.db mOwn 1) stForeign
      (FormT.mk dataClaim5 InlFields.nil)).2 = stForeign ∧
    (saveInlines 1 stForeign (FormT.mk [] (InlFields.cons mOwn
      (Entries.ofList ([] ++ FormT.mk dataClaim5 InlFields.nil :: []))
      InlFields.nil))).1.isSome = true := by
  have h := c1_reject_foreign mOwn 1 stForeign dataClaim5 InlFields.nil
    ⟨Val.vInt 5, by decide, by decide, Or.inl (by decide)⟩
  exact ⟨h.1, h.2.1, h.2.2 [] InlFields.nil [] []⟩

/-! ## Claim C3 : creation of new child entries -/

/-- Claim C3: for every submitted child entry with an unset identifier and an
unset delete flag (and, as the shipped converter guarantees, no foreign key
field in the child form), `save_inlines` creates exactly one new child record,
links it to the parent — its foreign key attribute holds the parent's primary
key — and saves it exactly once: the database grows by exactly that record and
the auto-increment counter by one. -/
theorem c3_create_and_link (m : InlineMeta) (parentPk : Nat) (st : St)
    (data : List (String × Val))
    (hpk : lookupA data m.subPkName = some Val.vNone)
    (hnd : (data.map Prod.fst).Nodup)
    (hdel : truthy (lookupA data "delete_") = false)
    (hfk : lookupA data m.fkName = none)
    (hne : m.fkName ≠ m.subPkName) :
    processEntry m parentPk (existingOf st.db m parentPk) st
        (FormT.mk data InlFields.nil) =
      (none, ⟨st.db ++ [⟨m.subModel,
        setA (populateAttrs [(m.fkName, Val.vInt parentPk)] data) m.subPkName
          (Val.vInt st.ctr)⟩], st.ctr + 1⟩) ∧
    lookupA (setA (populateAttrs [(m.fkName, Val.vInt parentPk)] data)
        m.subPkName (Val.vInt st.ctr)) m.fkName = some (Val.vInt parentPk) ∧
    ∀ pd : List (String × Val),
      saveInlines parentPk st (FormT.mk pd (InlFields.cons m
        (Entries.cons (FormT.mk data InlFields.nil) Entries.nil)
        InlFields.nil)) =
      (none, ⟨st.db ++ [⟨m.subModel,
        setA (populateAttrs [(m.fkName, Val.vInt parentPk)] data) m.subPkName
          (Val.vInt st.ctr)⟩], st.ctr + 1⟩) := by
  have hmain := processEntry_create m parentPk (existingOf st.db m parentPk)
    st data hpk hnd hdel
  refine ⟨hmain, ?_, ?_⟩
  · rw [lookupA_setA_ne _ _ _ _ hne,
      lookupA_populate_not_mem _ _ _ (not_mem_of_lookupA_none hfk),
      lookupA_cons, if_pos rfl]
  · intro pd
    simp only [saveInlines, saveFieldList, entriesHavePk, hpk, Option.isSome_some,
      Bool.true_and, if_true, saveEntries, hmain]

/-- Witness for C3 on the concrete new entry. -/
theorem c3_witness :
    processEntry mOwn 1 (existingOf (⟨[], 10⟩ : St).db mOwn 1) ⟨[], 10⟩
        (FormT.mk dataNew InlFields.nil) =
      (none, ⟨([] : List Rec) ++ [⟨mOwn.subModel,
        setA (populateAttrs [(mOwn.fkName, Val.vInt 1)] dataNew) mOwn.subPkName
          (Val.vInt 10)⟩], 10 + 1⟩) ∧
    lookupA (setA (populateAttrs [(mOwn.fkName, Val.vInt 1)] dataNew)
        mOwn.subPkName (Val.vInt 10)) mOwn.fkName = some (Val.vInt 1) ∧
    ∀ pd : List (String × Val),
      saveInlines 1 ⟨[], 10⟩ (FormT.mk pd (InlFields.cons mOwn
        (Entries.cons (FormT.mk dataNew InlFields.nil) Entries.nil)
        InlFields.nil)) =
      (none, ⟨([] : List Rec) ++ [⟨mOwn.subModel,
        setA (populateAttrs [(mOwn.fkName, Val.vInt 1)] dataNew) mOwn.subPkName
          (Val.vInt 10)⟩], 10 + 1⟩) :=
  c3_create_and_link mOwn 1 ⟨[], 10⟩ dataNew (by decide) (by decide) (by decide)
    (by decide) (by decide)

/-! ## Claim C4 : deletion of flagged child entries -/

/-- Claim C4: a submitted child entry whose identifier belongs to the parent's
existing related set and whose delete flag is set makes `save_inlines` delete
that record; the entry is neither populated nor saved nor recursed into (the
result does not depend on its nested collections and changes nothing but the
deleted row), and no record of that model with that primary key remains. -/
theorem c4_delete_flag (m : InlineMeta) (parentPk : Nat) (st : St)
    (data : List (String × Val)) (inls : InlFields) (p : Nat) (r : Rec)
    (hpk : lookupA data m.subPkName = some (Val.vInt p))
    (hex : findEx (existingOf st.db m parentPk) (Val.vInt p) = some (p, r))
    (hfk : getDA data m.fkName (Val.vInt parentPk) = Val.vInt parentPk)
    (hdel : truthy (lookupA data "delete_") = true) :
    processEntry m parentPk (existingOf st.db m parentPk) st
        (FormT.mk data inls) = (none, deleteRec m.subModel m.subPkName p st) ∧
    (∀ q ∈ (deleteRec m.subModel m.subPkName p st).db,
      ¬(q.model = m.subModel ∧ recPk m.subPkName q = some p)) ∧
    ∀ pd : List (String × Val),
      saveInlines parentPk st (FormT.mk pd (InlFields.cons m
        (Entries.cons (FormT.mk data inls) Entries.nil) InlFields.nil)) =
      (none, deleteRec m.subModel m.subPkName p st) := by
  have hmain : processEntry m parentPk (existingOf st.db m parentPk) st
      (FormT.mk data inls) = (none, deleteRec m.subModel m.subPkName p st) := by
    have h1 : ¬(Val.vInt p = Val.vNone) := by simp
    have h2 : ¬(getDA data m.fkName (Val.vInt parentPk) ≠ Val.vInt parentPk) :=
      fun hne => hne hfk
    simp only [processEntry, hpk, hex, if_neg h1, if_neg h2, if_pos hdel]
  refine ⟨hmain, ?_, ?_⟩
  · intro q hq hcon
    unfold deleteRec at hq
    simp only [List.mem_filter] at hq
    have := hq.2
    simp only [Bool.not_eq_eq_eq_not, Bool.not_true, decide_eq_false_iff_not]
      at this
    exact this hcon
  · intro pd
    simp only [saveInlines, saveFieldList, entriesHavePk, hpk,
      Option.isSome_some, Bool.true_and, if_true, saveEntries, hmain]

/-- Witness for C4 on the concrete delete-flagged entry. -/
theorem c4_witness :
    processEntry mOwn 1 (existingOf stOwn1.db mOwn 1) stOwn1
        (FormT.mk dataDel InlFields.nil) =
      (none, deleteRec mOwn.subModel mOwn.subPkName 5 stOwn1) ∧
    (∀ q ∈ (deleteRec mOwn.subModel mOwn.subPkName 5 stOwn1).db,
      ¬(q.model = mOwn.subModel ∧ recPk mOwn.subPkName q = some 5)) ∧
    ∀ pd : List (String × Val),
      saveInlines 1 stOwn1 (FormT.mk pd (InlFields.cons mOwn
        (Entries.cons (FormT.mk dataDel InlFields.nil) Entries.nil)
        InlFields.nil)) =
      (none, deleteRec mOwn.subModel mOwn.subPkName 5 stOwn1) :=
  c4_delete_flag mOwn 1 stOwn1 dataDel InlFields.nil 5 childOf1 (by decide)
    (by decide) (by decide) (by decide)

/-- Witness for C10 at the nullable choice-free `CharField`. -/
theorem c10_witness :
    ({ name := "nick", kind := FieldKind.textF, label := ""
       validators := [VKind.optionalV], filters := [FilterKind.nullFilter]
       default := none, description := "" } : FieldInfo).filters =
      (if ({ name := "nick", kind := FieldKind.textF, label := ""
             validators := [VKind.optionalV], filters := [FilterKind.nullFilter]
             default := none, description := "" } : FieldInfo).kind =
          FieldKind.wpDateTimeF then []
       else if fldNullChar.null then [FilterKind.nullFilter] else []) ∧
    handle_null_filter (Val.vStr "") = Val.vNone ∧
    (∀ v, v ≠ Val.vStr "" → handle_null_filter v = v) :=
  c10_null_filter [] fldNullChar _ rfl

/-! ## Claim C7 : idempotence of a second identical save -/

/-- Claim C7, counterexample: saving the same form twice is not idempotent and
the second save does raise when a child entry carries a delete flag — the
first save deletes the child, so the second save rejects its identifier as a
foreign child. -/
theorem c7_counterexample :
    save_to "id" formDel objParent1 stOwn1 = (none, ⟨[], 20⟩) ∧
    save_to "id" formDel objParent1 ⟨[], 20⟩ =
      (some "Cannot save data to a foreign child (id 5).", ⟨[], 20⟩) := by
  refine ⟨rfl, rfl⟩

/-- Claim C7 (amended): calling `save_to` twice in succession with the same
form and identical submitted data raises no error on the second save and
leaves the parent's record and each surviving identified child's record with
exactly the values they had after the first save, provided no submitted child
entry carries a delete flag (deletion is not idempotent: the second save then
raises an ownership error).  Stated for a form holding one inline field with
one flat child entry; an identifier-less entry is created anew by each save,
which is why newly created records are not covered by the unchanged-field
guarantee. -/
theorem c7_idempotent_second_save (pkName : String) (m : InlineMeta)
    (pdata cdata : List (String × Val)) (obj : Rec) (p : Nat) (st0 st1 : St)
    (hmodel : obj.model ≠ m.subModel)
    (hopk : recPk pkName obj = some p)
    (hppk : lookupA pdata pkName = none)
    (hfkd : lookupA cdata m.fkName = none)
    (hdel : truthy (lookupA cdata "delete_") = false)
    (hndc : (cdata.map Prod.fst).Nodup)
    (hdbn : ∀ r ∈ st0.db, (r.attrs.map Prod.fst).Nodup)
    (hrun1 : save_to pkName (FormT.mk pdata (InlFields.cons m
        (Entries.cons (FormT.mk cdata InlFields.nil) Entries.nil)
        InlFields.nil)) obj st0 = (none, st1)) :
    ∃ st2, save_to pkName (FormT.mk pdata (InlFields.cons m
        (Entries.cons (FormT.mk cdata InlFields.nil) Entries.nil)
        InlFields.nil)) obj st1 = (none, st2) ∧
      findRow st2.db obj.model pkName p = findRow st1.db obj.model pkName p ∧
      ∀ q, lookupA cdata m.subPkName = some (Val.vInt q) →
        findRow st2.db m.subModel m.subPkName q =
          findRow st1.db m.subModel m.subPkName q := by
  have hb0none : (saveToBody pkName (FormT.mk pdata (InlFields.cons m
      (Entries.cons (FormT.mk cdata InlFields.nil) Entries.nil)
      InlFields.nil)) obj st0).1 = none :=
    (save_to_fst _ _ _ _).symm.trans (congrArg Prod.fst hrun1)
  have hbody0 := saveToBody_eq pkName pdata
    (InlFields.cons m (Entries.cons (FormT.mk cdata InlFields.nil) Entries.nil)
      InlFields.nil) obj st0 p hopk hppk
  rcases hcd : lookupA cdata m.subPkName with _ | pv
  · -- the entry has no primary key value at all: the first save raised
    exfalso
    have hek : entriesHavePk m.subPkName
        (Entries.cons (FormT.mk cdata InlFields.nil) Entries.nil) = false := by
      simp [entriesHavePk, hcd]
    rw [hbody0] at hb0none
    simp [saveFieldList, hek] at hb0none
  · cases pv with
    | vNone =>
      -- create path: each save inserts a fresh child and touches no other row
      have hpe : ∀ s : St, processEntry m p (existingOf s.db m p) s
          (FormT.mk cdata InlFields.nil) =
          (none, ⟨s.db ++ [⟨m.subModel,
            setA (populateAttrs [(m.fkName, Val.vInt p)] cdata) m.subPkName
              (Val.vInt s.ctr)⟩], s.ctr + 1⟩) :=
        fun s => processEntry_create m p _ s cdata hcd hndc hdel
      have hrunAll : ∀ s : St, save_to pkName (FormT.mk pdata (InlFields.cons m
          (Entries.cons (FormT.mk cdata InlFields.nil) Entries.nil)
          InlFields.nil)) obj s =
          (none, ⟨s.db.map (replaceBy pkName (populateRec obj pdata) p) ++
            [⟨m.subModel, setA (populateAttrs [(m.fkName, Val.vInt p)] cdata)
              m.subPkName (Val.vInt s.ctr)⟩], s.ctr + 1⟩) := by
        intro s
        apply save_to_of_body_none
        rw [saveToBody_eq pkName pdata _ obj s p hopk hppk]
        rw [saveFieldList_single m p _ cdata InlFields.nil (by rw [hcd]; rfl)]
        exact hpe ⟨s.db.map (replaceBy pkName (populateRec obj pdata) p), s.ctr⟩
      have hst1 : st1 = ⟨st0.db.map (replaceBy pkName (populateRec obj pdata) p)
          ++ [⟨m.subModel, setA (populateAttrs [(m.fkName, Val.vInt p)] cdata)
            m.subPkName (Val.vInt st0.ctr)⟩], st0.ctr + 1⟩ := by
        have h2 := hrunAll st0
        rw [hrun1] at h2
        exact congrArg Prod.snd h2
      have hfPnc : ∀ c, replaceBy pkName (populateRec obj pdata) p
          ⟨m.subModel, setA (populateAttrs [(m.fkName, Val.vInt p)] cdata)
            m.subPkName (Val.vInt c)⟩ =
          ⟨m.subModel, setA (populateAttrs [(m.fkName, Val.vInt p)] cdata)
            m.subPkName (Val.vInt c)⟩ := by
        intro c
        apply replaceBy_neg
        rintro ⟨hm, _⟩
        exact hmodel (hm.symm)
      have hmap1 : st1.db.map (replaceBy pkName (populateRec obj pdata) p) =
          st1.db := by
        rw [hst1]
        rw [List.map_append]
        congr 1
        · rw [List.map_map]
          apply List.map_congr_left
          intro x _
          exact replaceBy_idem _ _ _ _
        · simp only [List.map_cons, List.map_nil]
          rw [hfPnc st0.ctr]
      refine ⟨_, hrunAll st1, ?_, ?_⟩
      · rw [hmap1]
        unfold findRow
        apply find?_append_none
        intro y hy
        rw [List.mem_singleton] at hy
        subst hy
        simp only [decide_eq_false_iff_not]
        rintro ⟨hm, _⟩
        exact hmodel hm.symm
      · intro q hq
        exact absurd hq (by simp)
    | vInt q =>
      rcases hfe1 : findEx (existingOf
          (st0.db.map (replaceBy pkName (populateRec obj pdata) p)) m p)
          (Val.vInt q) with _ | pr
      · -- identifier not in the related set: the first save raised
        exfalso
        have hbad : (processEntry m p (existingOf
            (st0.db.map (replaceBy pkName (populateRec obj pdata) p)) m p)
            ⟨st0.db.map (replaceBy pkName (populateRec obj pdata) p), st0.ctr⟩
            (FormT.mk cdata InlFields.nil)).1.isSome = true :=
          (processEntry_of_bad _ _
            ⟨Val.vInt q, hcd, by simp, Or.inl hfe1⟩).1
        rw [hbody0] at hb0none
        rw [saveFieldList_single m p _ cdata InlFields.nil
          (by rw [hcd]; rfl)] at hb0none
        rw [hb0none] at hbad
        simp at hbad
      · have hfe1' : (existingOf
            (st0.db.map (replaceBy pkName (populateRec obj pdata) p)) m p).find?
            (fun x => decide (Val.vInt x.1 = Val.vInt q)) = some pr := hfe1
        have hprq : pr.1 = q := by
          have hpred := List.find?_some hfe1'
          simp only [decide_eq_true_eq] at hpred
          injection hpred
        obtain ⟨hr0db, hr0model, hr0pk, hr0fk⟩ :=
          mem_existingOf (List.mem_of_find?_eq_some hfe1')
        rcases pr with ⟨q0, r0⟩
        simp only at hprq hr0db hr0model hr0pk hr0fk
        subst q0
        have hr0mem : r0 ∈ st0.db := by
          rcases List.mem_map.mp hr0db with ⟨x, hx, hfx⟩
          unfold replaceBy at hfx
          split at hfx
          · exfalso
            apply hmodel
            rw [← hfx] at hr0model
            exact hr0model
          · exact hfx ▸ hx
        have hr0nd : (r0.attrs.map Prod.fst).Nodup := hdbn r0 hr0mem
        have hrun1' : save_to pkName (FormT.mk pdata (InlFields.cons m
            (Entries.cons (FormT.mk cdata InlFields.nil) Entries.nil)
            InlFields.nil)) obj st0 =
            (none, ⟨(st0.db.map (replaceBy pkName (populateRec obj pdata) p)).map
              (replaceBy m.subPkName (populateRec r0 cdata) q), st0.ctr⟩) := by
          apply save_to_of_body_none
          rw [hbody0]
          rw [saveFieldList_single m p _ cdata InlFields.nil (by rw [hcd]; rfl)]
          exact processEntry_update m p _ _ cdata q r0 hcd hfe1 hfkd hdel hndc
        have hst1 : st1 = ⟨(st0.db.map
            (replaceBy pkName (populateRec obj pdata) p)).map
            (replaceBy m.subPkName (populateRec r0 cdata) q), st0.ctr⟩ := by
          have h2 := hrun1'
          rw [hrun1] at h2
          exact congrArg Prod.snd h2
        have hsub1pk : recPk m.subPkName (populateRec r0 cdata) = some q := by
          rw [recPk_eq_some_iff]
          exact lookupA_populate_mem _ _ _ _ hndc hcd
        have hsub1fk : lookupA (populateRec r0 cdata).attrs m.fkName =
            some (Val.vInt p) := by
          show lookupA (populateAttrs r0.attrs cdata) m.fkName = _
          rw [lookupA_populate_not_mem _ _ _ (not_mem_of_lookupA_none hfkd)]
          exact hr0fk
        have hsub1model : (populateRec r0 cdata).model = m.subModel := hr0model
        have hdb1 : st1.db.map (replaceBy pkName (populateRec obj pdata) p) =
            st1.db := by
          rw [hst1]
          simp only [List.map_map]
          apply List.map_congr_left
          intro x hx
          simp only [Function.comp_apply]
          by_cases hcy : (replaceBy pkName (populateRec obj pdata) p x).model =
              (populateRec r0 cdata).model ∧
              recPk m.subPkName (replaceBy pkName (populateRec obj pdata) p x) =
                some q
          · rw [replaceBy_pos hcy]
            apply replaceBy_neg
            rintro ⟨hm2, _⟩
            exact hmodel (hm2.symm.trans hr0model)
          · rw [replaceBy_neg hcy, replaceBy_idem]
        have hsub1mem : populateRec r0 cdata ∈ st1.db := by
          rw [hst1]
          exact List.mem_map.mpr ⟨r0, hr0db, replaceBy_pos ⟨rfl, hr0pk⟩⟩
        have hmem2 : (q, populateRec r0 cdata) ∈ existingOf st1.db m p :=
          mem_existingOf_intro hsub1mem hsub1model hsub1pk hsub1fk
        have huniq : ∀ y ∈ existingOf st1.db m p,
            (decide (Val.vInt y.1 = Val.vInt q) : Bool) = true →
            y = (q, populateRec r0 cdata) := by
          intro y hy hpy
          have hyq : y.1 = q := by
            have h2 := of_decide_eq_true hpy
            injection h2
          obtain ⟨hymem, hymodel, hypk, hyfk⟩ := mem_existingOf hy
          rw [hst1] at hymem
          rcases List.mem_map.mp hymem with ⟨z, hz, hgz⟩
          by_cases hcz : z.model = (populateRec r0 cdata).model ∧
              recPk m.subPkName z = some q
          · have hy2 : y.2 = populateRec r0 cdata := by
              rw [← hgz, replaceBy_pos hcz]
            rcases y with ⟨y1, y2⟩
            simp only at hyq hy2
            rw [hyq, hy2]
          · exfalso
            apply hcz
            have hz2 : z = y.2 := by
              rw [← hgz, replaceBy_neg hcz]
            constructor
            · rw [hz2, hymodel]
              exact hsub1model.symm
            · rw [hz2, hypk, hyq]
        have hfe2 : findEx (existingOf st1.db m p) (Val.vInt q) =
            some (q, populateRec r0 cdata) :=
          find?_eq_of_mem_unique _ _ _ hmem2 (by simp) huniq
        have hsub2 : populateRec (populateRec r0 cdata) cdata =
            populateRec r0 cdata :=
          populateRec_idem r0 cdata hr0nd
        have hdb2 : st1.db.map (replaceBy m.subPkName (populateRec r0 cdata) q) =
            st1.db := by
          rw [hst1]
          simp only [List.map_map]
          apply List.map_congr_left
          intro x _
          simp only [Function.comp_apply]
          exact replaceBy_idem _ _ _ _
        refine ⟨st1, ?_, rfl, fun q' _ => rfl⟩
        apply save_to_of_body_none
        rw [saveToBody_eq pkName pdata _ obj st1 p hopk hppk]
        rw [hdb1]
        rw [saveFieldList_single m p _ cdata InlFields.nil (by rw [hcd]; rfl)]
        rw [processEntry_update m p _ _ cdata q (populateRec r0 cdata) hcd hfe2
          hfkd hdel hndc]
        rw [hsub2, hdb2]
    | vStr s =>
      exfalso
      have hfen : findEx (existingOf
          (st0.db.map (replaceBy pkName (populateRec obj pdata) p)) m p)
          (Val.vStr s) = none := by
        apply List.find?_eq_none.mpr
        intro x hx
        simp
      have hbad : (processEntry m p (existingOf
          (st0.db.map (replaceBy pkName (populateRec obj pdata) p)) m p)
          ⟨st0.db.map (replaceBy pkName (populateRec obj pdata) p), st0.ctr⟩
          (FormT.mk cdata InlFields.nil)).1.isSome = true :=
        (processEntry_of_bad _ _
          ⟨Val.vStr s, hcd, by simp, Or.inl hfen⟩).1
      rw [hbody0] at hb0none
      rw [saveFieldList_single m p _ cdata InlFields.nil
        (by rw [hcd]; rfl)] at hb0none
      rw [hb0none] at hbad
      simp at hbad
    | vBool b =>
      exfalso
      have hfen : findEx (existingOf
          (st0.db.map (replaceBy pkName (populateRec obj pdata) p)) m p)
          (Val.vBool b) = none := by
        apply List.find?_eq_none.mpr
        intro x hx
        simp
      have hbad : (processEntry m p (existingOf
          (st0.db.map (replaceBy pkName (populateRec obj pdata) p)) m p)
          ⟨st0.db.map (replaceBy pkName (populateRec obj pdata) p), st0.ctr⟩
          (FormT.mk cdata InlFields.nil)).1.isSome = true :=
        (processEntry_of_bad _ _
          ⟨Val.vBool b, hcd, by simp, Or.inl hfen⟩).1
      rw [hbody0] at hb0none
      rw [saveFieldList_single m p _ cdata InlFields.nil
        (by rw [hcd]; rfl)] at hb0none
      rw [hb0none] at hbad
      simp at hbad

/-- Witness for C7 on the concrete parent-and-child database: the first save
updates both rows, the second save succeeds and leaves them unchanged. -/
theorem c7_witness :
    ∃ st2, save_to "id" (FormT.mk pdataC7 (InlFields.cons mOwn
        (Entries.cons (FormT.mk cdataC7 InlFields.nil) Entries.nil)
        InlFields.nil)) objParent1 stTwoAfter = (none, st2) ∧
      findRow st2.db objParent1.model "id" 1 =
        findRow stTwoAfter.db objParent1.model "id" 1 ∧
      ∀ q, lookupA cdataC7 mOwn.subPkName = some (Val.vInt q) →
        findRow st2.db mOwn.subModel mOwn.subPkName q =
          findRow stTwoAfter.db mOwn.subModel mOwn.subPkName q :=
  c7_idempotent_second_save "id" mOwn pdataC7 cdataC7 objParent1 1 stTwo
    stTwoAfter (by decide) (by decide) (by decide) (by decide) (by decide)
    (by decide) (by decide) (by decide)

end WtfPeewee
